import Mathlib

/-!
Verification of the `matrixtables` filtering pipeline (gogoGPCR).

The pipeline operates on a Variant-by-Sample Matrix (VSM): rows keyed by
(locus, alleles) with per-row annotations, columns keyed by sample id, and a
per-cell genotype-call entry (GT, DP, GQ) that may be missing.  Every stage of
`src/matrixtables.py` is a short orchestration function over an external
engine (Hail); the engine primitives it calls (`filter_rows`, `filter_cols`,
`filter_entries`, `sample_cols`, `split_multi_hts`, `import_bed`,
`anti_join_cols`, `annotate_rows`, `compute_entry_filter_stats`) are modelled
here as executable functions over an in-memory matrix, and the pipeline
functions are translated statement by statement from the Python source.
-/

namespace GogoGPCR

/-- A genomic locus: contig name and 1-based position. -/
structure Locus where
  contig : String
  position : Nat
deriving DecidableEq, Repr

/-- A genotype call: the list of called allele indices (0 = reference).
A call of length 1 is haploid, of length 2 diploid. -/
structure Call where
  alleles : List Nat
deriving DecidableEq, Repr

/-- Hail `CallExpression.is_haploid`: the call has ploidy 1. -/
def Call.is_haploid (c : Call) : Bool := c.alleles.length == 1

/-- Hail `CallExpression.is_diploid`: the call has ploidy 2. -/
def Call.is_diploid (c : Call) : Bool := c.alleles.length == 2

/-- A genotype-call entry of one matrix cell: call, read depth, genotype
quality. -/
structure Entry where
  GT : Call
  DP : Int
  GQ : Int
deriving DecidableEq, Repr

/-- The `gq_stats` aggregate inside the `variant_qc` block. -/
structure GqStats where
  mean : Rat
deriving DecidableEq, Repr

/-- The per-row `variant_qc` block computed by `hl.variant_qc` (only the
fields this pipeline reads). -/
structure VariantQC where
  p_value_hwe : Rat
  gq_stats : GqStats
  n_non_ref : Nat
deriving DecidableEq, Repr

/-- A VSM row: key fields (locus, alleles) and the row annotations the
pipeline reads or writes.  `variant_qc` data is only meaningful when the
matrix-level schema flag `hasVariantQC` is set. -/
structure Row where
  locus : Locus
  alleles : List String
  a_index : Option Nat := none
  was_split : Option Bool := none
  varid : Option String := none
  entries_n_filtered : Option Nat := none
  variant_qc : VariantQC := ⟨0, ⟨0⟩, 0⟩
deriving DecidableEq, Repr

/-- One row of the matrix together with its cells, one per column; a cell is
`none` when the entry is missing or has been filtered. -/
structure RowData where
  row : Row
  cells : List (Option Entry)
deriving DecidableEq, Repr

/-- The Variant-by-Sample Matrix.  `hasVariantQC` records whether the
`variant_qc` row field exists in the schema (accessing it when absent raises
`AttributeError` in the engine). -/
structure MatrixTable where
  cols : List String
  rows : List RowData
  hasVariantQC : Bool := false
deriving DecidableEq, Repr

/-- Engine primitive `MatrixTable.filter_rows` (with `keep=True`): keep the
rows whose data satisfies the predicate. -/
def filter_rows (mt : MatrixTable) (p : RowData → Bool) : MatrixTable :=
  { mt with rows := mt.rows.filter p }

/-- Engine primitive `MatrixTable.filter_cols`: keep the columns whose sample
id satisfies the predicate, dropping the corresponding cell of every row. -/
def filter_cols (mt : MatrixTable) (p : String → Bool) : MatrixTable :=
  { mt with
    cols := mt.cols.filter p,
    rows := mt.rows.map fun rd =>
      { rd with cells := ((rd.cells.zip mt.cols).filter fun cs => p cs.2).map Prod.fst } }

/-- Engine primitive `MatrixTable.filter_entries` (with `keep=True`): a
defined entry failing the predicate becomes missing; missing entries stay
missing. -/
def filter_entries (mt : MatrixTable) (p : Entry → Bool) : MatrixTable :=
  { mt with rows := mt.rows.map fun rd =>
      { rd with cells := rd.cells.map fun c =>
          match c with
          | some e => if p e then some e else none
          | none => none } }

/-- Engine primitive `MatrixTable.compute_entry_filter_stats`, modelled at row
granularity: annotate each row with how many of its entries are undefined. -/
def compute_entry_filter_stats (mt : MatrixTable) : MatrixTable :=
  { mt with rows := mt.rows.map fun rd =>
      { rd with row := { rd.row with entries_n_filtered := some (rd.cells.countP fun c => c.isNone) } } }

/-- A pure stand-in for the engine's seeded per-column random draw: the keep
decision for column `j` is a function of the seed, the probability and `j`
alone. -/
def seededKeep (seed : Int) (p : Rat) (j : Nat) : Bool :=
  ((((seed.natAbs * 2654435761 + j * 40503 + 12345) % 65536 : Nat) : Rat) / 65536) < p

/-- Engine primitive `MatrixTable.sample_cols`: keep each column independently
with probability `p`.  With an explicit seed the draw is the deterministic
function `seededKeep` of (seed, p, column index); with no seed the ambient
entropy stream of the engine session decides. -/
def sample_cols (mt : MatrixTable) (p : Rat) (seed : Option Int)
    (entropy : Nat → Bool) : MatrixTable :=
  let keep : Nat → Bool := fun j =>
    match seed with
    | some s => seededKeep s p j
    | none => entropy j
  { mt with
    cols := (mt.cols.enum.filter fun jc => keep jc.1).map Prod.snd,
    rows := mt.rows.map fun rd =>
      { rd with cells := (rd.cells.enum.filter fun jc => keep jc.1).map Prod.snd } }

/-- `downsample_mt` (matrixtables.py lines 44-67): if `prob` is set, sample
columns with the given seed; otherwise return the input unchanged.  The
`entropy` stream models the engine RNG an unseeded draw would consume. -/
def downsample_mt (mt : MatrixTable) (prob : Option Rat) (seed : Int)
    (entropy : Nat → Bool) : MatrixTable :=
  match prob with
  | some p => sample_cols mt p (some seed) entropy
  | none => mt

/-- The message of the engine exception raised when a missing row field such
as `variant_qc` is accessed. -/
def attributeError : String := "AttributeError: variant_qc"

/-- `hard_variant_filter_mt` (matrixtables.py lines 142-161).  The
`try: mt.variant_qc / except AttributeError: print(...)` probe only emits a
message; the function then proceeds, and each threshold that is set filters
rows through `mt.variant_qc` again — an access that raises `AttributeError`
(uncaught this time) when the schema lacks the field.  The result is the list
of printed warnings together with either the filtered matrix or the raised
exception. -/
def hard_variant_filter_mt (mt : MatrixTable) (min_p_value_hwe : Option Rat)
    (min_GQ : Option Rat) : List String × Except String MatrixTable :=
  let warns : List String :=
    if mt.hasVariantQC then [] else ["hard_variant_filter requires variant_qc"]
  let afterHwe : Except String MatrixTable :=
    match min_p_value_hwe with
    | none => Except.ok mt
    | some t =>
        if mt.hasVariantQC then
          Except.ok (filter_rows mt fun rd => ! (rd.row.variant_qc.p_value_hwe < t))
        else Except.error attributeError
  let afterGQ : Except String MatrixTable :=
    match afterHwe with
    | Except.error e => Except.error e
    | Except.ok mt₁ =>
        match min_GQ with
        | none => Except.ok mt₁
        | some t =>
            if mt₁.hasVariantQC then
              Except.ok (filter_rows mt₁ fun rd => ! (rd.row.variant_qc.gq_stats.mean < t))
            else Except.error attributeError
  (warns, afterGQ)

/-- `filter_no_carriers` (matrixtables.py lines 181-192): same probe-and-print
pattern as `hard_variant_filter_mt`, then unconditionally drops the rows with
`variant_qc.n_non_ref == 0` — re-raising `AttributeError` when the schema
lacks `variant_qc`. -/
def filter_no_carriers (mt : MatrixTable) : List String × Except String MatrixTable :=
  let warns : List String :=
    if mt.hasVariantQC then [] else ["filter_no_carriers requires variant_qc"]
  let result : Except String MatrixTable :=
    if mt.hasVariantQC then
      Except.ok (filter_rows mt fun rd => ! (rd.row.variant_qc.n_non_ref == 0))
    else Except.error attributeError
  (warns, result)

/-- The meaning of Python `str.startswith` / Hail `StringExpression.startswith`
as a structural character-list prefix test. -/
def strStartsWith (s pat : String) : Bool := List.isPrefixOf pat.data s.data

/-- `hard_sample_filter_mt` (matrixtables.py lines 99-125): anti-join the
columns against the exclusion list (the newline-delimited file is modelled as
the list of its sample ids), then drop every column whose sample id starts
with "-" (`filter_cols(..., keep=False)`). -/
def hard_sample_filter_mt (mt : MatrixTable) (samples_to_remove : List String) :
    MatrixTable :=
  let mt₁ := filter_cols mt fun s => ! samples_to_remove.contains s
  filter_cols mt₁ fun s => ! strStartsWith s "-"

/-- The entry-keep rule of `genotype_filter_mt`: Python's `//` is floor
division, `Int.fdiv` here. -/
def genotypeKeep (min_DP min_GQ : Int) (e : Entry) : Bool :=
  (e.GT.is_haploid && decide (e.DP > Int.fdiv min_DP 2) && decide (e.GQ ≥ min_GQ))
  || (e.GT.is_diploid && decide (e.DP > min_DP) && decide (e.GQ ≥ min_GQ))

/-- `genotype_filter_mt` (matrixtables.py lines 163-179): entry-level filter
keeping haploid calls with `DP > min_DP // 2 ∧ GQ ≥ min_GQ` and diploid calls
with `DP > min_DP ∧ GQ ≥ min_GQ`; optionally annotate entry-filter
statistics. -/
def genotype_filter_mt (mt : MatrixTable) (min_DP min_GQ : Int)
    (log_entries_filtered : Bool) : MatrixTable :=
  let mt₁ := filter_entries mt (genotypeKeep min_DP min_GQ)
  if log_entries_filtered then compute_entry_filter_stats mt₁ else mt₁

/-- The entry of the matrix at row index `i`, column index `j` (`none` when
out of range or the cell is missing). -/
def entryAt (mt : MatrixTable) (i j : Nat) : Option Entry :=
  match mt.rows[i]? with
  | some rd =>
      match rd.cells[j]? with
      | some c => c
      | none => none
  | none => none

/-- `add_varid` (matrixtables.py lines 194-220): annotate every row with
`varid`, the colon-joined contig, position and first two allele strings
(`hl.delimit` is string interleaving with the given separator). -/
def add_varid (mt : MatrixTable) : MatrixTable :=
  { mt with rows := mt.rows.map fun rd =>
      { rd with row := { rd.row with varid := some (String.intercalate ":"
          [rd.row.locus.contig, toString rd.row.locus.position,
           rd.row.alleles.getD 0 "", rd.row.alleles.getD 1 ""]) } } }

/-- Engine primitive `MatrixTable.union_rows`: the row-union of two matrices
over the same columns (the engine merges by row key; key order is not
observable in the properties below, so the union is modelled as
concatenation). -/
def union_rows (a b : MatrixTable) : MatrixTable := { a with rows := a.rows ++ b.rows }

/-- One application of `hl.split_multi_hts` to a single row: a row with at
most two alleles passes through annotated `a_index = 1, was_split = false`; a
multi-allelic row yields one row per alternate allele `k+1` (1-based index
`k+1`), keyed by the reference/alternate pair, annotated
`a_index = k+1, was_split = true`, with every genotype call downcoded (the
split allele becomes 1, every other allele 0). -/
def splitRowData (rd : RowData) : List RowData :=
  if rd.row.alleles.length ≤ 2 then
    [{ rd with row := { rd.row with a_index := some 1, was_split := some false } }]
  else
    (List.range (rd.row.alleles.length - 1)).map fun k =>
      { row := { rd.row with
          alleles := [rd.row.alleles.getD 0 "", rd.row.alleles.getD (k + 1) ""],
          a_index := some (k + 1),
          was_split := some true },
        cells := rd.cells.map fun c => c.map fun e =>
          { e with GT := { alleles := e.GT.alleles.map fun a => if a = k + 1 then 1 else 0 } } }

/-- Engine primitive `hl.split_multi_hts`.  The `left_aligned` flag only
controls whether alleles are re-normalized (min-rep) before decomposition; it
changes neither row multiplicity nor the annotations, and normalization is
modelled as the identity. -/
def split_multi_hts (mt : MatrixTable) (left_aligned : Bool) : MatrixTable :=
  { mt with rows := (mt.rows.map splitRowData).flatten }

/-- `smart_split_multi_mt` (matrixtables.py lines 128-140): re-key by
(locus, alleles) (not observable here), partition the rows into biallelic
(exactly 2 alleles, annotated `a_index = 1, was_split = false`) and
multi-allelic (more than 2 alleles, decomposed by `split_multi_hts`), and
union the two partitions. -/
def smart_split_multi_mt (mt : MatrixTable) (left_aligned : Bool) : MatrixTable :=
  let bi := filter_rows mt fun rd => rd.row.alleles.length == 2
  let bi := { bi with rows := bi.rows.map fun rd =>
      { rd with row := { rd.row with a_index := some 1, was_split := some false } } }
  let multi := filter_rows mt fun rd => decide (rd.row.alleles.length > 2)
  let split := split_multi_hts multi left_aligned
  union_rows split bi

/-- A capture-region interval as `hl.import_bed` produces it: contig name and
inclusive coordinate bounds. -/
structure BedInterval where
  contig : String
  lo : Nat
  hi : Nat
deriving DecidableEq, Repr

/-- Engine primitive `hl.import_bed` called with the line-filter regex
`^(?!(pat))`: a line is removed from the file on a partial regex match, which
for this anchored negative-lookahead pattern happens exactly when the line
does not start with `pat`.  `pat = "chr" + region` holds no tab, so a prefix
match on the line is a prefix match on its leading contig field. -/
def import_bed (bed : List BedInterval) (pat : String) : List BedInterval :=
  bed.filter fun iv => strStartsWith iv.contig pat

/-- Membership of a locus in a capture interval. -/
def inInterval (iv : BedInterval) (l : Locus) : Bool :=
  iv.contig == l.contig && decide (iv.lo ≤ l.position) && decide (l.position ≤ iv.hi)

/-- `interval_qc_mt` (matrixtables.py lines 69-97): import the BED intervals
under the contig filter regex built from `mapping['GRCh38_region']`, then
keep the rows whose locus lies in a retained interval
(`hl.is_defined(interval_table[mt.locus])`). -/
def interval_qc_mt (mt : MatrixTable) (region : String) (bed : List BedInterval) :
    MatrixTable :=
  let interval_table := import_bed bed ("chr" ++ region)
  filter_rows mt fun rd => interval_table.any fun iv => inInterval iv rd.row.locus

/-- The claim's reading of the contig restriction of C4: an interval survives
only when its contig IS the contig named by the mapping (string equality
rather than the code's prefix test). -/
def interval_qc_claimed (mt : MatrixTable) (region : String) (bed : List BedInterval) :
    MatrixTable :=
  let interval_table := bed.filter fun iv => iv.contig == "chr" ++ region
  filter_rows mt fun rd => interval_table.any fun iv => inInterval iv rd.row.locus

/-- Fixture: a haploid call with depth 2 and quality 30. -/
def eHap : Entry := { GT := { alleles := [1] }, DP := 2, GQ := 30 }

/-- Fixture: a diploid call with depth 6 and quality 30. -/
def eDip : Entry := { GT := { alleles := [0, 1] }, DP := 6, GQ := 30 }

/-- Fixture: a VSM lacking the `variant_qc` schema block, with one biallelic
row and one sample. -/
def mtNoQC : MatrixTable :=
  { cols := ["S1"],
    rows := [{ row := { locus := { contig := "chr1", position := 100 },
                        alleles := ["A", "T"] },
               cells := [some eDip] }],
    hasVariantQC := false }

/-- Fixture: a VSM with two cells in one row, the first holding a haploid
call and the second a diploid call. -/
def mtGeno : MatrixTable :=
  { cols := ["S1", "S2"],
    rows := [{ row := { locus := { contig := "chr1", position := 100 },
                        alleles := ["A", "T"] },
               cells := [some eHap, some eDip] }] }

/-- Fixture: a VSM with sample columns S1, S2 and "-S3". -/
def mtSamples : MatrixTable :=
  { cols := ["S1", "S2", "-S3"],
    rows := [{ row := { locus := { contig := "chr1", position := 100 },
                        alleles := ["A", "T"] },
               cells := [some eHap, some eDip, none] }] }

/-- Fixture: a biallelic row. -/
def rowBi : RowData :=
  { row := { locus := { contig := "chr1", position := 100 }, alleles := ["A", "T"] },
    cells := [some eDip] }

/-- Fixture: a triallelic row. -/
def rowTri : RowData :=
  { row := { locus := { contig := "chr1", position := 200 }, alleles := ["A", "T", "G"] },
    cells := [some eDip] }

/-- Fixture: a VSM with one biallelic and one triallelic row. -/
def mtSplit : MatrixTable := { cols := ["S1"], rows := [rowBi, rowTri] }

/-- Fixture: a VSM whose single row carries only the reference allele. -/
def mtMono : MatrixTable :=
  { cols := ["S1"],
    rows := [{ row := { locus := { contig := "chr1", position := 300 }, alleles := ["A"] },
               cells := [some eDip] }] }

/-- Fixture: a VSM with one row at chr10:7. -/
def mtChr10 : MatrixTable :=
  { cols := [],
    rows := [{ row := { locus := { contig := "chr10", position := 7 },
                        alleles := ["A", "T"] },
               cells := [] }] }

/-- Fixture: a BED file with a single interval on contig chr10. -/
def bedChr10 : List BedInterval := [{ contig := "chr10", lo := 5, hi := 9 }]

end GogoGPCR

namespace GogoGPCR

/-- Helper: `compute_entry_filter_stats` only annotates rows; it leaves every
entry in place. -/
theorem entryAt_compute_entry_filter_stats (mt : MatrixTable) (i j : Nat) :
    entryAt (compute_entry_filter_stats mt) i j = entryAt mt i j := by
  simp only [entryAt, compute_entry_filter_stats, List.getElem?_map]
  cases mt.rows[i]? <;> rfl

/-- Helper: what `filter_entries` leaves at a cell. -/
theorem entryAt_filter_entries (mt : MatrixTable) (p : Entry → Bool) (i j : Nat) :
    entryAt (filter_entries mt p) i j
      = match entryAt mt i j with
        | some e => if p e then some e else none
        | none => none := by
  simp only [entryAt, filter_entries, List.getElem?_map]
  cases mt.rows[i]? with
  | none => rfl
  | some rd =>
      simp only [Option.map_some', List.getElem?_map]
      cases rd.cells[j]? with
      | none => rfl
      | some c => cases c <;> rfl

/-- Helper: the Boolean entry-keep rule as a proposition. -/
theorem genotypeKeep_eq_true (min_DP min_GQ : Int) (e : Entry) :
    genotypeKeep min_DP min_GQ e = true ↔
      ((e.GT.is_haploid = true ∧ e.DP > Int.fdiv min_DP 2 ∧ e.GQ ≥ min_GQ)
       ∨ (e.GT.is_diploid = true ∧ e.DP > min_DP ∧ e.GQ ≥ min_GQ)) := by
  simp [genotypeKeep, Bool.or_eq_true, Bool.and_eq_true, and_assoc]

/-- Helper: a haploid call is not diploid. -/
theorem haploid_not_diploid (c : Call) (h : c.is_haploid = true) :
    c.is_diploid = false := by
  simp [Call.is_haploid] at h
  simp [Call.is_diploid]
  omega

/-- Helper: the cell left by `genotype_filter_mt`. -/
theorem entryAt_genotype_filter_mt (mt : MatrixTable) (min_DP min_GQ : Int)
    (lef : Bool) (i j : Nat) :
    entryAt (genotype_filter_mt mt min_DP min_GQ lef) i j
      = match entryAt mt i j with
        | some e => if genotypeKeep min_DP min_GQ e then some e else none
        | none => none := by
  cases lef with
  | false => exact entryAt_filter_entries mt _ i j
  | true =>
      show entryAt (compute_entry_filter_stats (filter_entries mt _)) i j = _
      rw [entryAt_compute_entry_filter_stats, entryAt_filter_entries]

/-- C6: `downsample_mt` with `prob = none` returns the input VSM unchanged,
for every matrix, seed and ambient entropy stream. -/
theorem downsample_mt_none_id (mt : MatrixTable) (seed : Int)
    (entropy : Nat → Bool) : downsample_mt mt none seed entropy = mt := rfl

/-- C8: `downsample_mt` is deterministic: with `prob` and seed fixed, the
result does not depend on the engine's ambient entropy stream, so two
invocations with the same VSM, probability and seed retain the same sample
set. -/
theorem downsample_mt_deterministic (mt : MatrixTable) (p : Rat) (seed : Int)
    (e₁ e₂ : Nat → Bool) :
    downsample_mt mt (some p) seed e₁ = downsample_mt mt (some p) seed e₂ := rfl

/-- C9: `add_varid` is idempotent: applying it twice yields the same matrix,
and in particular the same `varid` row annotation, as applying it once. -/
theorem add_varid_idem (mt : MatrixTable) :
    add_varid (add_varid mt) = add_varid mt := by
  simp only [add_varid, List.map_map]
  rfl

/-- C7: `hard_variant_filter_mt` with both thresholds unset returns a value
identical to the input matrix, row-for-row and annotation-for-annotation (the
probe of `variant_qc` at most prints a message). -/
theorem hard_variant_filter_mt_none_id (mt : MatrixTable) :
    (hard_variant_filter_mt mt none none).2 = Except.ok mt := rfl

/-- C3: on a VSM lacking the `variant_qc` block, `hard_variant_filter_mt`
with a threshold set prints its warning and then raises `AttributeError`
inside `filter_rows` (it does not skip the stage or pass the input through),
and `filter_no_carriers` likewise warns and raises. -/
theorem missing_variant_qc_raises :
    hard_variant_filter_mt mtNoQC (some (1/20)) none
      = (["hard_variant_filter requires variant_qc"], Except.error attributeError)
    ∧ filter_no_carriers mtNoQC
      = (["filter_no_carriers requires variant_qc"], Except.error attributeError) :=
  ⟨rfl, rfl⟩

/-- C5: `hard_sample_filter_mt` keeps exactly the columns that are neither in
the exclusion list nor start with "-", removes no row, and on the fixture
with columns S1, S2, -S3 and list [S1] keeps exactly S2. -/
theorem hard_sample_filter_mt_spec :
    (∀ (mt : MatrixTable) (rm : List String) (s : String),
        s ∈ (hard_sample_filter_mt mt rm).cols ↔
          s ∈ mt.cols ∧ s ∉ rm ∧ strStartsWith s "-" = false)
    ∧ (∀ (mt : MatrixTable) (rm : List String),
        (hard_sample_filter_mt mt rm).rows.map RowData.row = mt.rows.map RowData.row)
    ∧ (hard_sample_filter_mt mtSamples ["S1"]).cols = ["S2"] := by
  refine ⟨fun mt rm s => ?_, fun mt rm => ?_, by decide⟩
  · simp only [hard_sample_filter_mt, filter_cols, List.mem_filter,
      Bool.not_eq_true', List.contains, List.elem_eq_mem, decide_eq_false_iff_not]
    tauto
  · simp only [hard_sample_filter_mt, filter_cols, List.map_map]
    rfl

/-- C1: `genotype_filter_mt` retains exactly the defined entries satisfying
the ploidy-aware rule — haploid calls need `DP > min_DP // 2` (floor
division, Python `//`) and `GQ ≥ min_GQ`, diploid calls need `DP > min_DP`
and `GQ ≥ min_GQ`; in particular a haploid call with `DP` equal to
`min_DP // 2` exactly is filtered out, and a diploid call with
`DP = min_DP + 1` and `GQ = min_GQ` is retained. -/
theorem genotype_filter_mt_spec :
    (∀ (mt : MatrixTable) (min_DP min_GQ : Int) (lef : Bool) (i j : Nat) (e : Entry),
        entryAt (genotype_filter_mt mt min_DP min_GQ lef) i j = some e ↔
          entryAt mt i j = some e ∧
            ((e.GT.is_haploid = true ∧ e.DP > Int.fdiv min_DP 2 ∧ e.GQ ≥ min_GQ)
             ∨ (e.GT.is_diploid = true ∧ e.DP > min_DP ∧ e.GQ ≥ min_GQ)))
    ∧ (∀ (mt : MatrixTable) (min_DP min_GQ : Int) (lef : Bool) (i j : Nat) (e : Entry),
        entryAt mt i j = some e → e.GT.is_haploid = true →
          e.DP = Int.fdiv min_DP 2 →
          entryAt (genotype_filter_mt mt min_DP min_GQ lef) i j = none)
    ∧ (∀ (mt : MatrixTable) (min_DP min_GQ : Int) (lef : Bool) (i j : Nat) (e : Entry),
        entryAt mt i j = some e → e.GT.is_diploid = true → e.DP = min_DP + 1 →
          e.GQ = min_GQ →
          entryAt (genotype_filter_mt mt min_DP min_GQ lef) i j = some e) := by
  refine ⟨fun mt dp gq lef i j e => ?_, fun mt dp gq lef i j e he hh hd => ?_,
    fun mt dp gq lef i j e he hh hd hq => ?_⟩
  · rw [entryAt_genotype_filter_mt]
    cases he : entryAt mt i j with
    | none => simp
    | some e' =>
        by_cases hk : genotypeKeep dp gq e' = true
        · simp only [hk, if_true]
          constructor
          · intro h
            injection h with h
            subst h
            exact ⟨rfl, (genotypeKeep_eq_true _ _ _).mp hk⟩
          · exact fun h => h.1
        · rw [Bool.not_eq_true] at hk
          simp only [hk, Bool.false_eq_true, if_false]
          constructor
          · intro h
            exact absurd h (by simp)
          · rintro ⟨h, hp⟩
            injection h with h
            subst h
            exact absurd ((genotypeKeep_eq_true _ _ _).mpr hp) (by simp [hk])
  · rw [entryAt_genotype_filter_mt, he]
    have hk : genotypeKeep dp gq e = false := by
      rw [← Bool.not_eq_true, genotypeKeep_eq_true]
      rintro (⟨_, hgt, _⟩ | ⟨hdip, _, _⟩)
      · omega
      · rw [haploid_not_diploid e.GT hh] at hdip
        exact absurd hdip (by simp)
    simp [hk]
  · rw [entryAt_genotype_filter_mt, he]
    have hk : genotypeKeep dp gq e = true := by
      rw [genotypeKeep_eq_true]
      exact Or.inr ⟨hh, by omega, by omega⟩
    simp [hk]

/-- C1, witness: on the fixture with `min_DP = 5` (so `min_DP // 2 = 2`) and
`min_GQ = 30`, the haploid cell with `DP = 2` is filtered out and the diploid
cell with `DP = 6 = min_DP + 1, GQ = 30` is retained. -/
theorem genotype_filter_mt_spec_witness :
    entryAt (genotype_filter_mt mtGeno 5 30 true) 0 0 = none
    ∧ entryAt (genotype_filter_mt mtGeno 5 30 true) 0 1 = some eDip :=
  ⟨genotype_filter_mt_spec.2.1 mtGeno 5 30 true 0 0 eHap (by decide) (by decide)
      (by decide),
   genotype_filter_mt_spec.2.2 mtGeno 5 30 true 0 1 eDip (by decide) (by decide)
      (by decide) (by decide)⟩

/-- Helper: the split row of a multi-allelic row for alternate allele `k+1`:
it exists, keeps the locus, and carries the 1-based index, the split marker
and the reference/alternate allele pair. -/
theorem splitRowData_mem (rd : RowData) (k : Nat) (h2 : 2 < rd.row.alleles.length)
    (hk : k < rd.row.alleles.length - 1) :
    ∃ rd' ∈ splitRowData rd,
      rd'.row.locus = rd.row.locus ∧ rd'.row.a_index = some (k + 1) ∧
      rd'.row.was_split = some true ∧
      rd'.row.alleles = [rd.row.alleles.getD 0 "", rd.row.alleles.getD (k + 1) ""] := by
  unfold splitRowData
  rw [if_neg (by omega)]
  exact ⟨_, List.mem_map.mpr ⟨k, List.mem_range.mpr hk, rfl⟩, rfl, rfl, rfl, rfl⟩

/-- Helper: every split row of a multi-allelic row is biallelic. -/
theorem splitRowData_length (rd rd' : RowData) (h2 : 2 < rd.row.alleles.length)
    (h : rd' ∈ splitRowData rd) : rd'.row.alleles.length = 2 := by
  unfold splitRowData at h
  rw [if_neg (by omega)] at h
  obtain ⟨k, _, rfl⟩ := List.mem_map.mp h
  rfl

/-- C2: `smart_split_multi_mt` sends every biallelic row through annotated
`a_index = 1, was_split = false`; every row with more than 2 alleles yields,
for each alternate allele, an output row at the same locus annotated with its
1-based `a_index` and `was_split = true` and keyed by the decomposed allele
pair; and on the fixture with one 2-allele row and one 3-allele row the
output has exactly 1 row with `was_split = false, a_index = 1` and exactly 2
rows with `was_split = true`, all of them with `a_index ∈ {1, 2}`. -/
theorem smart_split_multi_mt_spec :
    (∀ (mt : MatrixTable) (la : Bool) (rd : RowData),
        rd ∈ mt.rows → rd.row.alleles.length = 2 →
          { rd with row := { rd.row with a_index := some 1, was_split := some false } }
            ∈ (smart_split_multi_mt mt la).rows)
    ∧ (∀ (mt : MatrixTable) (la : Bool) (rd : RowData),
        rd ∈ mt.rows → 2 < rd.row.alleles.length →
          ∀ k, k < rd.row.alleles.length - 1 →
            ∃ rd', rd' ∈ (smart_split_multi_mt mt la).rows ∧
              rd'.row.locus = rd.row.locus ∧
              rd'.row.a_index = some (k + 1) ∧
              rd'.row.was_split = some true ∧
              rd'.row.alleles
                = [rd.row.alleles.getD 0 "", rd.row.alleles.getD (k + 1) ""])
    ∧ ((smart_split_multi_mt mtSplit false).rows.countP
          (fun rd => rd.row.was_split == some false && rd.row.a_index == some 1) = 1
        ∧ (smart_split_multi_mt mtSplit false).rows.countP
            (fun rd => rd.row.was_split == some true) = 2
        ∧ (smart_split_multi_mt mtSplit false).rows.countP
            (fun rd => rd.row.was_split == some true
              && (rd.row.a_index == some 1 || rd.row.a_index == some 2)) = 2) := by
  refine ⟨fun mt la rd hmem hlen => ?_, fun mt la rd hmem hlen k hk => ?_,
    by decide, by decide, by decide⟩
  · simp only [smart_split_multi_mt, union_rows, filter_rows, List.mem_append]
    right
    exact List.mem_map.mpr ⟨rd, List.mem_filter.mpr ⟨hmem, by simp [hlen]⟩, rfl⟩
  · obtain ⟨rd', hrd', hprops⟩ := splitRowData_mem rd k hlen hk
    refine ⟨rd', ?_, hprops⟩
    simp only [smart_split_multi_mt, union_rows, split_multi_hts, filter_rows,
      List.mem_append]
    left
    exact List.mem_flatten.mpr ⟨splitRowData rd,
      List.mem_map.mpr ⟨rd, List.mem_filter.mpr ⟨hmem, by simpa using hlen⟩, rfl⟩, hrd'⟩

/-- C2, witness: on the two-row fixture the annotated biallelic row is in the
output, and the triallelic row has a split output row with `a_index = 2`. -/
theorem smart_split_multi_mt_spec_witness :
    { rowBi with row := { rowBi.row with a_index := some 1, was_split := some false } }
        ∈ (smart_split_multi_mt mtSplit false).rows
    ∧ ∃ rd', rd' ∈ (smart_split_multi_mt mtSplit false).rows ∧
        rd'.row.locus = rowTri.row.locus ∧ rd'.row.a_index = some 2 ∧
        rd'.row.was_split = some true ∧
        rd'.row.alleles = [rowTri.row.alleles.getD 0 "", rowTri.row.alleles.getD 2 ""] :=
  ⟨smart_split_multi_mt_spec.1 mtSplit false rowBi (by decide) (by decide),
   smart_split_multi_mt_spec.2.1 mtSplit false rowTri (by decide) (by decide) 1 (by decide)⟩

/-- C10: a row with fewer than 2 alleles falls in neither partition of
`smart_split_multi_mt` and is absent from the output: every output row is
biallelic, deleting the sub-biallelic input rows does not change the output,
and a VSM whose only row has 1 allele produces an empty row set. -/
theorem smart_split_multi_mt_drops_sub_biallelic :
    (∀ (mt : MatrixTable) (la : Bool) (rd' : RowData),
        rd' ∈ (smart_split_multi_mt mt la).rows → rd'.row.alleles.length = 2)
    ∧ (∀ (mt : MatrixTable) (la : Bool),
        smart_split_multi_mt
            { mt with rows := mt.rows.filter fun rd => decide (2 ≤ rd.row.alleles.length) }
            la
          = smart_split_multi_mt mt la)
    ∧ (smart_split_multi_mt mtMono false).rows = [] := by
  refine ⟨fun mt la rd' h => ?_, fun mt la => ?_, rfl⟩
  · simp only [smart_split_multi_mt, union_rows, split_multi_hts, filter_rows,
      List.mem_append] at h
    cases h with
    | inl h =>
        obtain ⟨l, hl, hrd'⟩ := List.mem_flatten.mp h
        obtain ⟨rd0, hrd0, rfl⟩ := List.mem_map.mp hl
        have h2 : 2 < rd0.row.alleles.length := by
          simpa using (List.mem_filter.mp hrd0).2
        exact splitRowData_length rd0 rd' h2 hrd'
    | inr h =>
        obtain ⟨rd0, hrd0, rfl⟩ := List.mem_map.mp h
        simpa using (List.mem_filter.mp hrd0).2
  · have hbi : ∀ l : List RowData,
        ((l.filter fun rd => decide (2 ≤ rd.row.alleles.length)).filter
            fun rd => rd.row.alleles.length == 2)
          = l.filter fun rd => rd.row.alleles.length == 2 := by
      intro l
      rw [List.filter_filter]
      apply List.filter_congr
      intro rd _
      cases h : (rd.row.alleles.length == 2) with
      | false => simp [h]
      | true =>
          have h2 : rd.row.alleles.length = 2 := by simpa using h
          simp [h, h2]
    have hmulti : ∀ l : List RowData,
        ((l.filter fun rd => decide (2 ≤ rd.row.alleles.length)).filter
            fun rd => decide (rd.row.alleles.length > 2))
          = l.filter fun rd => decide (rd.row.alleles.length > 2) := by
      intro l
      rw [List.filter_filter]
      apply List.filter_congr
      intro rd _
      cases h : decide (rd.row.alleles.length > 2) with
      | false => simp [h]
      | true =>
          have h2 : 2 < rd.row.alleles.length := by simpa using h
          simp [h]
          omega
    simp only [smart_split_multi_mt, union_rows, split_multi_hts, filter_rows]
    rw [hbi, hmulti]

/-- C10, witness: the general parts applied to the two-row fixture: the first
output row of `smart_split_multi_mt mtSplit` is biallelic, and filtering the
(absent) sub-biallelic rows of `mtSplit` leaves the output unchanged. -/
theorem smart_split_drops_sub_biallelic_witness :
    (∀ rd', rd' ∈ (smart_split_multi_mt mtSplit false).rows →
        rd'.row.alleles.length = 2)
    ∧ smart_split_multi_mt
          { mtSplit with
            rows := mtSplit.rows.filter fun rd => decide (2 ≤ rd.row.alleles.length) }
          false
        = smart_split_multi_mt mtSplit false :=
  ⟨fun rd' h => smart_split_multi_mt_drops_sub_biallelic.1 mtSplit false rd' h,
   smart_split_multi_mt_drops_sub_biallelic.2.1 mtSplit false⟩

/-- C4, counterexample: with region "1" and a BED interval on contig chr10,
the code keeps the chr10 interval — the regex is a prefix test and "chr10"
starts with "chr1" — and retains the row at chr10:7, while the claim's
exclusion of every interval whose contig is not the named contig would leave
no interval and drop the row. -/
theorem interval_qc_contig_cex :
    (interval_qc_mt mtChr10 "1" bedChr10).rows.length = 1
    ∧ (interval_qc_claimed mtChr10 "1" bedChr10).rows.length = 0
    ∧ interval_qc_mt mtChr10 "1" bedChr10 ≠ interval_qc_claimed mtChr10 "1" bedChr10 :=
  ⟨by decide, by decide, by decide⟩

/-- C4, amended: `interval_qc_mt` retains exactly the rows whose locus lies
inside a retained interval, where an interval is retained iff its contig
starts with the string `"chr" + region` — a prefix test, so an interval on a
contig that merely shares the named contig as a prefix (chr10 for region "1")
is not excluded. -/
theorem interval_qc_mt_amended (mt : MatrixTable) (region : String)
    (bed : List BedInterval) (rd : RowData) :
    rd ∈ (interval_qc_mt mt region bed).rows ↔
      rd ∈ mt.rows ∧ ∃ iv ∈ bed,
        strStartsWith iv.contig ("chr" ++ region) = true
        ∧ inInterval iv rd.row.locus = true := by
  simp only [interval_qc_mt, import_bed, filter_rows, List.mem_filter,
    List.any_eq_true, List.mem_filter]
  constructor
  · rintro ⟨hmem, iv, ⟨hiv, hpre⟩, hin⟩
    exact ⟨hmem, iv, hiv, hpre, hin⟩
  · rintro ⟨hmem, iv, hiv, hpre, hin⟩
    exact ⟨hmem, iv, ⟨hiv, hpre⟩, hin⟩

end GogoGPCR
